import Mathlib

/-!
Verification development for the gtkwedit trace-tree flattener
(`src/gtkwedit/__init__.py`).

The Python module defines a tree of trace nodes (signals, submodules,
groups, comments, blanks, styled wrappers, and bare signal-name strings),
a style/path merging pair of helpers, a depth-first traversal
`_traverse_dom` that emits calls on a save-file writer (`GTKWSave` from
pyvcd), and an entry point `write_gtkw_file`.

The embedding below models the writer as an event log.  Python runtime
details that matter are modelled faithfully:

* `Style` / `RootStyle` are `TypedDict`s, i.e. plain dicts at runtime: a
  key can be absent, and (for `color` / `extraflags`) present with value
  `None`.  We model each field as `Option` (absent) of the value type,
  doubled for the `Optional`-valued keys.
* `_merge_style` is the dict union `parent | own`: keys present in `own`
  win.
* `dict.get(k)` returns `None` both for an absent key and for a key set
  to `None`; this is `Option.join` on the doubled fields.
* `style.get("datafmt").value` raises `AttributeError` when the key is
  absent (`None.value`); the traversal models this as the `Err.noDatafmt`
  outcome.
* In Python, `str` is registered as a `collections.abc.Sequence`, so the
  normalization `if not isinstance(dom, Sequence): dom = [dom]` does NOT
  wrap a bare string: the loop then iterates over its characters, each a
  one-character string matched by `case str()`.  `travDom` models this
  with `travChars`.
* The writer can signal an error on any call; this is modelled by a
  budget: `none` means the writer never fails, `some k` means the writer
  raises on its `k`-th call from now (0-indexed).  A raising call emits
  nothing.  The `with save.group(...)` region close is emitted by the
  scoped region on every scope exit per the writer contract, so it is
  appended also on the error path.
* `GTKWSave.zoom_markers` has signature `(zoom, marker, **kwargs)`; the
  entry point calls it as `zoom_markers(zoom, marker, kwargs=...)`, so the
  collected keyword mapping it receives is `{"kwargs": <the dict>}` — the
  dict value is a Python object, modelled by `PyObj`.
-/

namespace Gtkwedit

/-- Opaque color value (`GTKWColor` from pyvcd); never inspected by the code. -/
abbrev Color := Nat

/-- Opaque flag set (`GTKWFlag` from pyvcd); never inspected by the code. -/
abbrev GTKWFlag := Nat

/-- Trace display data format (`DataFmt` enum). -/
inductive DataFmt where
  | HEX
  | DEC
  | BIN
  | OCT
  | ASCII
  | REAL
  | SIGNED
deriving DecidableEq

/-- The `.value` payload of each `DataFmt` enum member. -/
def DataFmt.value : DataFmt → String
  | .HEX => "hex"
  | .DEC => "dec"
  | .BIN => "bin"
  | .OCT => "oct"
  | .ASCII => "ascii"
  | .REAL => "real"
  | .SIGNED => "signed"

/-- Runtime content of a `Style` / `RootStyle` dict.  Each of the four
keys may be absent (outer `Option`); `color` and `extraflags` may also be
present with value `None` (inner `Option`). -/
structure Style where
  color : Option (Option Color)
  datafmt : Option DataFmt
  rjustify : Option Bool
  extraflags : Option (Option GTKWFlag)
deriving DecidableEq

/-- A dict is a valid `RootStyle` when the two mandatory keys are present. -/
def Style.isRoot (s : Style) : Bool :=
  s.datafmt.isSome && s.rjustify.isSome

/-- `_ROOT_STYLE = RootStyle(datafmt=DataFmt.HEX, rjustify=True)`. -/
def _ROOT_STYLE : Style :=
  { color := none, datafmt := some .HEX, rjustify := some true, extraflags := none }

/-- Per-key effect of the dict union `parent | own`: the entry of `own`
wins when present. -/
def dictOr {α : Type} (parent own : Option α) : Option α :=
  match own with
  | some v => some v
  | none => parent

/-- `_merge_style(parent, own)`: `parent | own` when `own is not None`,
else `parent`. -/
def _merge_style (parent : Style) (own : Option Style) : Style :=
  match own with
  | some o =>
    { color := dictOr parent.color o.color
      datafmt := dictOr parent.datafmt o.datafmt
      rjustify := dictOr parent.rjustify o.rjustify
      extraflags := dictOr parent.extraflags o.extraflags }
  | none => parent

/-- `_merge_path(parent, own)`. -/
def _merge_path (parent : Option String) (own : String) : String :=
  match parent with
  | some p => p ++ "." ++ own
  | none => own

/-- One call observed by the save-file writer during traversal. -/
inductive Event where
  | blank (label : String) (analogExtend : Bool) (highlight : Bool)
  | groupOpen (name : String) (closed : Bool) (highlight : Bool)
  | groupClose
  | trace (path : String) (als : Option String) (color : Option Color)
      (datafmt : String) (highlight : Bool) (rjustify : Option Bool)
      (extraflags : Option GTKWFlag) (translateFilterFile : Option String)
      (translateFilterProcess : Option String)
deriving DecidableEq

/-- Errors that can escape the traversal: a writer-raised error, or the
`AttributeError` from `style.get("datafmt").value` when the key is absent. -/
inductive Err where
  | writer
  | noDatafmt
deriving DecidableEq

mutual
/-- The trace-node variants (`Trace` / `NestedTrace` type aliases collapse
to one runtime universe; `match` in `_traverse_dom` handles every variant
wherever it occurs). -/
inductive Trace where
  | str (name : String)
  | signal (name : String) (als : Option String) (highlight : Bool)
      (style : Option Style) (translateFilterFile : Option String)
      (translateFilterProcess : Option String)
  | submodule (name : String) (children : Dom) (style : Option Style)
  | group (name : String) (children : Dom) (closed : Bool) (highlight : Bool)
      (style : Option Style)
  | blank (analogExtend : Bool) (highlight : Bool)
  | comment (text : String) (analogExtend : Bool) (highlight : Bool)
  | styled (children : Dom) (style : Style)

/-- A sequence of trace nodes. -/
inductive TraceList where
  | nil
  | cons (hd : Trace) (tl : TraceList)

/-- The `Sequence[AnyTrace] | AnyTrace` argument shape: either a single
node or a sequence of nodes. -/
inductive Dom where
  | single (t : Trace)
  | seq (ts : TraceList)
end

/-- A writer call: with budget `none` the writer never fails; with
`some 0` this call raises (nothing emitted); with `some (k+1)` the call
succeeds and the budget ticks down. -/
def emit (e : Event) (b : Option Nat) : List Event × Option Nat × Option Err :=
  match b with
  | none => ([e], none, none)
  | some 0 => ([], some 0, some .writer)
  | some (k + 1) => ([e], some k, none)

/-- The `case str()` arm of the loop: evaluate the trace arguments (the
`parent_style.get("datafmt").value` access raises when the key is absent),
then make the writer call. -/
def emitImplicit (ps : Style) (pp : Option String) (name : String) (b : Option Nat) :
    List Event × Option Nat × Option Err :=
  match ps.datafmt with
  | none => ([], b, some .noDatafmt)
  | some f =>
    emit (.trace (_merge_path pp name) none ps.color.join f.value false
      ps.rjustify ps.extraflags.join none none) b

/-- Iterating a bare string passed where a sequence is expected: Python
iterates its characters, each a one-character string handled by the
`case str()` arm. -/
def travChars (ps : Style) (pp : Option String) :
    List Char → Option Nat → List Event × Option Nat × Option Err
  | [], b => ([], b, none)
  | c :: rest, b =>
    match emitImplicit ps pp (String.singleton c) b with
    | (evs, b2, some e) => (evs, b2, some e)
    | (evs, b2, none) =>
      match travChars ps pp rest b2 with
      | (evs2, b3, r) => (evs ++ evs2, b3, r)

mutual
/-- One iteration of the `for item in dom` loop of `_traverse_dom`. -/
def travTrace : Trace → Style → Option String → Option Nat →
    List Event × Option Nat × Option Err
  | .comment text ae hl, _, _, b => emit (.blank text ae hl) b
  | .blank ae hl, _, _, b => emit (.blank ("") ae hl) b
  | .group name children closed hl style, ps, pp, b =>
    match emit (.groupOpen name closed hl) b with
    | (evs, b2, some e) => (evs, b2, some e)
    | (evs, b2, none) =>
      match travDom children (_merge_style ps style) pp b2 with
      | (cevs, b3, r) => (evs ++ cevs ++ [.groupClose], b3, r)
  | .submodule name children style, ps, pp, b =>
    travDom children (_merge_style ps style) (some (_merge_path pp name)) b
  | .signal name als hl style tff tfp, ps, pp, b =>
    let s := _merge_style ps style
    match s.datafmt with
    | none => ([], b, some .noDatafmt)
    | some f =>
      emit (.trace (_merge_path pp name) als s.color.join f.value hl
        s.rjustify s.extraflags.join tff tfp) b
  | .styled children style, ps, pp, b =>
    travDom children (_merge_style ps (some style)) pp b
  | .str name, ps, pp, b => emitImplicit ps pp name b

/-- The `for item in dom` loop over an actual sequence. -/
def travList : TraceList → Style → Option String → Option Nat →
    List Event × Option Nat × Option Err
  | .nil, _, _, b => ([], b, none)
  | .cons t rest, ps, pp, b =>
    match travTrace t ps pp b with
    | (evs, b2, some e) => (evs, b2, some e)
    | (evs, b2, none) =>
      match travList rest ps pp b2 with
      | (evs2, b3, r) => (evs ++ evs2, b3, r)

/-- `_traverse_dom(save, dom, parent_style, parent_path)`: a bare string
counts as a `Sequence` (so it is iterated character-wise); any other single
node is wrapped into a one-element list. -/
def travDom : Dom → Style → Option String → Option Nat →
    List Event × Option Nat × Option Err
  | .single (.str s), ps, pp, b => travChars ps pp s.toList b
  | .single t, ps, pp, b => travTrace t ps pp b
  | .seq ts, ps, pp, b => travList ts ps pp b
end

/-- A Python value appearing among collected keyword arguments of
`zoom_markers`: either an `int` (a marker position) or a `dict` (what the
entry point actually passes under the keyword name `kwargs`). -/
inductive PyObj where
  | int (i : Int)
  | dict (d : List (String × Int))
deriving DecidableEq

/-- A call observed by the writer at the entry-point level. -/
inductive TopEvent where
  | comment (text : String)
  | dumpfile (path : String) (abs : Bool)
  | zoomMarkers (zoom : Float) (marker : Int) (received : List (String × PyObj))
  | w (e : Event)

/-- `write_gtkw_file`: optional attribution comment, dump-file reference,
the `zoom_markers` call, then the traversal of `traces` (run here with a
never-failing writer).  The Python call
`gtkw.zoom_markers(zoom, marker, kwargs=kwargs.get("named_markers", dict()))`
passes one keyword argument literally named `kwargs`, so the `**kwargs`
mapping `zoom_markers` receives is `{"kwargs": <named-markers dict>}`. -/
def write_gtkw_file (vcd_file : String) (traces : Dom) (source_file : Option String)
    (zoom : Float) (marker : Int) (root_style : Style) (root_module : Option String)
    (add_vcd_mtime : Option Bool) (vcd_abs : Option Bool)
    (named_markers : Option (List (String × Int))) (timestart : Option Int) :
    List TopEvent × Option Err :=
  let _ := add_vcd_mtime
  let _ := timestart
  let pre : List TopEvent :=
    (match source_file with
      | some sf => [.comment (("Auto-generated from ") ++ sf)]
      | none => [])
    ++ [.dumpfile vcd_file (vcd_abs.getD true),
        .zoomMarkers zoom marker [(("kwargs"), .dict (named_markers.getD []))]]
  match travDom traces root_style root_module none with
  | (evs, _, r) => (pre ++ evs.map TopEvent.w, r)

mutual
/-- Refinement reference, following the spec's words (§4.2 table): the
writer calls emitted for one node, in depth-first pre-order.  The spec's
`parentStyle` is a `RootStyle` (mandatory `dataFormat` / `rightJustify`);
the `getD` default below is arbitrary and only fires outside that
precondition. -/
def specFlattenTrace : Trace → Style → Option String → List Event
  | .comment text ae hl, _, _ => [.blank text ae hl]
  | .blank ae hl, _, _ => [.blank ("") ae hl]
  | .group name children closed hl style, ps, pp =>
    .groupOpen name closed hl ::
      (specFlattenDom children (_merge_style ps style) pp ++ [.groupClose])
  | .submodule name children style, ps, pp =>
    specFlattenDom children (_merge_style ps style) (some (_merge_path pp name))
  | .signal name als hl style tff tfp, ps, pp =>
    let s := _merge_style ps style
    [.trace (_merge_path pp name) als s.color.join (s.datafmt.getD .HEX).value hl
      s.rjustify s.extraflags.join tff tfp]
  | .styled children style, ps, pp =>
    specFlattenDom children (_merge_style ps (some style)) pp
  | .str name, ps, pp =>
    [.trace (_merge_path pp name) none ps.color.join (ps.datafmt.getD .HEX).value false
      ps.rjustify ps.extraflags.join none none]

/-- Refinement reference: sequence of nodes, in order. -/
def specFlattenList : TraceList → Style → Option String → List Event
  | .nil, _, _ => []
  | .cons t rest, ps, pp => specFlattenTrace t ps pp ++ specFlattenList rest ps pp

/-- Refinement reference, following the spec's words: a single node is
treated as a one-element sequence (spec §4.2, input normalization). -/
def specFlattenDom : Dom → Style → Option String → List Event
  | .single t, ps, pp => specFlattenTrace t ps pp
  | .seq ts, ps, pp => specFlattenList ts ps pp
end

mutual
/-- No bare signal-name string occurs as a lone (non-sequence) `children`
or `nodes` value anywhere in the node. -/
def goodTrace : Trace → Bool
  | .str _ => true
  | .signal _ _ _ _ _ _ => true
  | .submodule _ children _ => goodDom children
  | .group _ children _ _ _ => goodDom children
  | .blank _ _ => true
  | .comment _ _ _ => true
  | .styled children _ => goodDom children

/-- `goodTrace` for each element of a sequence. -/
def goodList : TraceList → Bool
  | .nil => true
  | .cons t rest => goodTrace t && goodList rest

/-- `goodTrace` through the `single node | sequence` shape; a lone bare
string is rejected. -/
def goodDom : Dom → Bool
  | .single (.str _) => false
  | .single t => goodTrace t
  | .seq ts => goodList ts
end

/-- Prefix the path of a `trace` event with `p ++ "."`; other events are
unchanged. -/
def prefixEvent (p : String) : Event → Event
  | .trace path als color fmt hl rj ef tff tfp =>
    .trace (p ++ "." ++ path) als color fmt hl rj ef tff tfp
  | e => e

/-- A `trace` event has its `rjustify` argument present; other events hold
vacuously. -/
def evOk : Event → Bool
  | .trace _ _ _ _ _ rj _ _ _ => rj.isSome
  | _ => true

/-- A `trace` event carries path `target`; other events hold vacuously. -/
def pathOk (target : String) : Event → Bool
  | .trace path _ _ _ _ _ _ _ _ => path == target
  | _ => true

theorem dictOr_isSome {α : Type} (parent own : Option α) (h : parent.isSome = true) :
    (dictOr parent own).isSome = true := by
  cases own <;> simp [dictOr, h]

theorem isRoot_merge (parent : Style) (own : Option Style) (h : parent.isRoot = true) :
    (_merge_style parent own).isRoot = true := by
  cases own with
  | none => exact h
  | some o =>
    simp only [Style.isRoot, Bool.and_eq_true] at h
    simp only [Style.isRoot, _merge_style, Bool.and_eq_true]
    exact ⟨dictOr_isSome _ _ h.1, dictOr_isSome _ _ h.2⟩

theorem isRoot_datafmt {s : Style} (h : s.isRoot = true) : ∃ f, s.datafmt = some f := by
  simp only [Style.isRoot, Bool.and_eq_true, Option.isSome_iff_exists] at h
  exact h.1

theorem isRoot_rjustify {s : Style} (h : s.isRoot = true) : ∃ v, s.rjustify = some v := by
  simp only [Style.isRoot, Bool.and_eq_true, Option.isSome_iff_exists] at h
  exact h.2

theorem prefixEvent_comp (p q : String) (e : Event) :
    prefixEvent (p ++ "." ++ q) e = prefixEvent p (prefixEvent q e) := by
  cases e <;> simp [prefixEvent, String.append_assoc]

theorem emitImplicit_root (ps : Style) (pp : Option String) (name : String) (b : Option Nat)
    (h : ps.isRoot = true) :
    (emitImplicit ps pp name b).2.2 ≠ some Err.noDatafmt ∧
      ((emitImplicit ps pp name b).1.all evOk) = true := by
  obtain ⟨f, hf⟩ := isRoot_datafmt h
  obtain ⟨v, hv⟩ := isRoot_rjustify h
  cases b with
  | none => simp [emitImplicit, hf, emit, evOk, hv]
  | some k => cases k <;> simp [emitImplicit, hf, emit, evOk, hv]

theorem travChars_root (ps : Style) (pp : Option String) (cs : List Char) (b : Option Nat)
    (h : ps.isRoot = true) :
    (travChars ps pp cs b).2.2 ≠ some Err.noDatafmt ∧
      ((travChars ps pp cs b).1.all evOk) = true := by
  induction cs generalizing b with
  | nil => simp [travChars]
  | cons c rest ih =>
    rcases h1 : emitImplicit ps pp (String.singleton c) b with ⟨evs, b2, r⟩
    have he := emitImplicit_root ps pp (String.singleton c) b h
    rw [h1] at he
    cases r with
    | some e =>
      simp only [travChars, h1]
      exact he
    | none =>
      rcases h2 : travChars ps pp rest b2 with ⟨evs2, b3, r2⟩
      have h3 := ih b2
      rw [h2] at h3
      simp only [travChars, h1, h2, List.all_append]
      refine ⟨h3.1, ?_⟩
      simp only [List.all_append, Bool.and_eq_true]
      exact ⟨he.2, h3.2⟩

mutual
theorem travTrace_root (t : Trace) (ps : Style) (pp : Option String) (b : Option Nat)
    (h : ps.isRoot = true) :
    (travTrace t ps pp b).2.2 ≠ some Err.noDatafmt ∧
      ((travTrace t ps pp b).1.all evOk) = true := by
  cases t with
  | comment text ae hl =>
    cases b with
    | none => simp [travTrace, emit, evOk]
    | some k => cases k <;> simp [travTrace, emit, evOk]
  | blank ae hl =>
    cases b with
    | none => simp [travTrace, emit, evOk]
    | some k => cases k <;> simp [travTrace, emit, evOk]
  | group name children closed hl style =>
    have hcs := isRoot_merge ps style h
    cases b with
    | none =>
      rcases h2 : travDom children (_merge_style ps style) pp none with ⟨cevs, b3, r⟩
      have h3 := travDom_root children (_merge_style ps style) pp none hcs
      rw [h2] at h3
      simp only [travTrace, emit, h2]
      refine ⟨h3.1, ?_⟩
      simpa [evOk, List.all_append] using h3.2
    | some k =>
      cases k with
      | zero => simp [travTrace, emit]
      | succ k =>
        rcases h2 : travDom children (_merge_style ps style) pp (some k) with ⟨cevs, b3, r⟩
        have h3 := travDom_root children (_merge_style ps style) pp (some k) hcs
        rw [h2] at h3
        simp only [travTrace, emit, h2]
        refine ⟨h3.1, ?_⟩
        simpa [evOk, List.all_append] using h3.2
  | submodule name children style =>
    exact travDom_root children (_merge_style ps style) (some (_merge_path pp name)) b
      (isRoot_merge ps style h)
  | signal name als hl style tff tfp =>
    have hcs := isRoot_merge ps style h
    obtain ⟨f, hf⟩ := isRoot_datafmt hcs
    obtain ⟨v, hv⟩ := isRoot_rjustify hcs
    cases b with
    | none => simp [travTrace, hf, emit, evOk, hv]
    | some k => cases k <;> simp [travTrace, hf, emit, evOk, hv]
  | styled children style =>
    exact travDom_root children (_merge_style ps (some style)) pp b
      (isRoot_merge ps (some style) h)
  | str name => exact emitImplicit_root ps pp name b h

theorem travList_root (ts : TraceList) (ps : Style) (pp : Option String) (b : Option Nat)
    (h : ps.isRoot = true) :
    (travList ts ps pp b).2.2 ≠ some Err.noDatafmt ∧
      ((travList ts ps pp b).1.all evOk) = true := by
  cases ts with
  | nil => simp [travList]
  | cons t rest =>
    rcases h1 : travTrace t ps pp b with ⟨evs, b2, r⟩
    have he := travTrace_root t ps pp b h
    rw [h1] at he
    cases r with
    | some e =>
      simp only [travList, h1]
      exact he
    | none =>
      rcases h2 : travList rest ps pp b2 with ⟨evs2, b3, r2⟩
      have h3 := travList_root rest ps pp b2 h
      rw [h2] at h3
      simp only [travList, h1, h2]
      refine ⟨h3.1, ?_⟩
      simp only [List.all_append, Bool.and_eq_true]
      exact ⟨he.2, h3.2⟩

theorem travDom_root (d : Dom) (ps : Style) (pp : Option String) (b : Option Nat)
    (h : ps.isRoot = true) :
    (travDom d ps pp b).2.2 ≠ some Err.noDatafmt ∧
      ((travDom d ps pp b).1.all evOk) = true := by
  cases d with
  | single t =>
    cases t with
    | str s => exact travChars_root ps pp s.toList b h
    | signal name als hl style tff tfp =>
      exact travTrace_root (.signal name als hl style tff tfp) ps pp b h
    | submodule name children style =>
      exact travTrace_root (.submodule name children style) ps pp b h
    | group name children closed hl style =>
      exact travTrace_root (.group name children closed hl style) ps pp b h
    | blank ae hl => exact travTrace_root (.blank ae hl) ps pp b h
    | comment text ae hl => exact travTrace_root (.comment text ae hl) ps pp b h
    | styled children style => exact travTrace_root (.styled children style) ps pp b h
  | seq ts => exact travList_root ts ps pp b h
end

theorem map_prefixEvent_comp (p q : String) (l : List Event) :
    l.map (prefixEvent (p ++ "." ++ q)) = (l.map (prefixEvent q)).map (prefixEvent p) := by
  induction l with
  | nil => rfl
  | cons e rest ih => simp [prefixEvent_comp, ih]

theorem emitImplicit_shift (ps : Style) (name : String) (b : Option Nat) (p : String) :
    emitImplicit ps (some p) name b =
      ((emitImplicit ps none name b).1.map (prefixEvent p),
        (emitImplicit ps none name b).2) := by
  cases hf : ps.datafmt with
  | none => simp [emitImplicit, hf]
  | some f =>
    cases b with
    | none => simp [emitImplicit, hf, emit, prefixEvent, _merge_path]
    | some k => cases k <;> simp [emitImplicit, hf, emit, prefixEvent, _merge_path]

theorem travChars_shift (ps : Style) (cs : List Char) (b : Option Nat) (p : String) :
    travChars ps (some p) cs b =
      ((travChars ps none cs b).1.map (prefixEvent p), (travChars ps none cs b).2) := by
  induction cs generalizing b with
  | nil => simp [travChars]
  | cons c rest ih =>
    have ihc := emitImplicit_shift ps (String.singleton c) b p
    rcases h1 : emitImplicit ps none (String.singleton c) b with ⟨evs, b2, r⟩
    rw [h1] at ihc
    cases r with
    | some e => simp [travChars, ihc, h1]
    | none =>
      have ih2 := ih b2
      rcases h2 : travChars ps none rest b2 with ⟨evs2, b3, r2⟩
      rw [h2] at ih2
      simp [travChars, ihc, h1, h2, ih2, List.map_append]

mutual
theorem travTrace_shift (t : Trace) (ps : Style) (b : Option Nat) (p : String) :
    travTrace t ps (some p) b =
      ((travTrace t ps none b).1.map (prefixEvent p), (travTrace t ps none b).2) := by
  cases t with
  | comment text ae hl =>
    cases b with
    | none => simp [travTrace, emit, prefixEvent]
    | some k => cases k <;> simp [travTrace, emit, prefixEvent]
  | blank ae hl =>
    cases b with
    | none => simp [travTrace, emit, prefixEvent]
    | some k => cases k <;> simp [travTrace, emit, prefixEvent]
  | group name children closed hl style =>
    cases b with
    | none =>
      have ih := travDom_shift children (_merge_style ps style) none p
      rcases h0 : travDom children (_merge_style ps style) none none with ⟨cevs, b3, r⟩
      rw [h0] at ih
      simp [travTrace, emit, ih, h0, prefixEvent, List.map_append]
    | some k =>
      cases k with
      | zero => simp [travTrace, emit]
      | succ k =>
        have ih := travDom_shift children (_merge_style ps style) (some k) p
        rcases h0 : travDom children (_merge_style ps style) none (some k) with ⟨cevs, b3, r⟩
        rw [h0] at ih
        simp [travTrace, emit, ih, h0, prefixEvent, List.map_append]
  | submodule name children style =>
    have ih1 := travDom_shift children (_merge_style ps style) b
    simp only [travTrace, _merge_path]
    rw [ih1 (p ++ "." ++ name), ih1 name, map_prefixEvent_comp]
  | signal name als hl style tff tfp =>
    cases hf : (_merge_style ps style).datafmt with
    | none => simp [travTrace, hf]
    | some f =>
      cases b with
      | none => simp [travTrace, hf, emit, prefixEvent, _merge_path]
      | some k => cases k <;> simp [travTrace, hf, emit, prefixEvent, _merge_path]
  | styled children style =>
    exact travDom_shift children (_merge_style ps (some style)) b p
  | str name => exact emitImplicit_shift ps name b p

theorem travList_shift (ts : TraceList) (ps : Style) (b : Option Nat) (p : String) :
    travList ts ps (some p) b =
      ((travList ts ps none b).1.map (prefixEvent p), (travList ts ps none b).2) := by
  cases ts with
  | nil => simp [travList]
  | cons t rest =>
    have ih := travTrace_shift t ps b p
    rcases h1 : travTrace t ps none b with ⟨evs, b2, r⟩
    rw [h1] at ih
    cases r with
    | some e => simp [travList, ih, h1]
    | none =>
      have ih2 := travList_shift rest ps b2 p
      rcases h2 : travList rest ps none b2 with ⟨evs2, b3, r2⟩
      rw [h2] at ih2
      simp [travList, ih, h1, h2, ih2, List.map_append]

theorem travDom_shift (d : Dom) (ps : Style) (b : Option Nat) (p : String) :
    travDom d ps (some p) b =
      ((travDom d ps none b).1.map (prefixEvent p), (travDom d ps none b).2) := by
  cases d with
  | single t =>
    cases t with
    | str s => exact travChars_shift ps s.toList b p
    | signal name als hl style tff tfp =>
      exact travTrace_shift (.signal name als hl style tff tfp) ps b p
    | submodule name children style =>
      exact travTrace_shift (.submodule name children style) ps b p
    | group name children closed hl style =>
      exact travTrace_shift (.group name children closed hl style) ps b p
    | blank ae hl => exact travTrace_shift (.blank ae hl) ps b p
    | comment text ae hl => exact travTrace_shift (.comment text ae hl) ps b p
    | styled children style => exact travTrace_shift (.styled children style) ps b p
  | seq ts => exact travList_shift ts ps b p
end

mutual
theorem travTrace_spec (t : Trace) (ps : Style) (pp : Option String)
    (h : ps.isRoot = true) (hg : goodTrace t = true) :
    travTrace t ps pp none = (specFlattenTrace t ps pp, none, none) := by
  cases t with
  | comment text ae hl => simp [travTrace, emit, specFlattenTrace]
  | blank ae hl => simp [travTrace, emit, specFlattenTrace]
  | group name children closed hl style =>
    have hcs := isRoot_merge ps style h
    have hgc : goodDom children = true := by simpa [goodTrace] using hg
    have ih := travDom_spec children (_merge_style ps style) pp hcs hgc
    simp [travTrace, emit, ih, specFlattenTrace]
  | submodule name children style =>
    have hcs := isRoot_merge ps style h
    have hgc : goodDom children = true := by simpa [goodTrace] using hg
    have ih := travDom_spec children (_merge_style ps style) (some (_merge_path pp name)) hcs hgc
    simpa [travTrace, specFlattenTrace] using ih
  | signal name als hl style tff tfp =>
    have hcs := isRoot_merge ps style h
    obtain ⟨f, hf⟩ := isRoot_datafmt hcs
    simp [travTrace, hf, emit, specFlattenTrace]
  | styled children style =>
    have hcs := isRoot_merge ps (some style) h
    have hgc : goodDom children = true := by simpa [goodTrace] using hg
    have ih := travDom_spec children (_merge_style ps (some style)) pp hcs hgc
    simpa [travTrace, specFlattenTrace] using ih
  | str name =>
    obtain ⟨f, hf⟩ := isRoot_datafmt h
    simp [travTrace, emitImplicit, hf, emit, specFlattenTrace]

theorem travList_spec (ts : TraceList) (ps : Style) (pp : Option String)
    (h : ps.isRoot = true) (hg : goodList ts = true) :
    travList ts ps pp none = (specFlattenList ts ps pp, none, none) := by
  cases ts with
  | nil => simp [travList, specFlattenList]
  | cons t rest =>
    have hg2 : goodTrace t = true ∧ goodList rest = true := by
      simpa [goodList, Bool.and_eq_true] using hg
    have ih1 := travTrace_spec t ps pp h hg2.1
    have ih2 := travList_spec rest ps pp h hg2.2
    simp [travList, ih1, ih2, specFlattenList]

theorem travDom_spec (d : Dom) (ps : Style) (pp : Option String)
    (h : ps.isRoot = true) (hg : goodDom d = true) :
    travDom d ps pp none = (specFlattenDom d ps pp, none, none) := by
  cases d with
  | single t =>
    cases t with
    | str s => simp [goodDom] at hg
    | signal name als hl style tff tfp =>
      exact travTrace_spec (.signal name als hl style tff tfp) ps pp h (by simpa [goodDom] using hg)
    | submodule name children style =>
      exact travTrace_spec (.submodule name children style) ps pp h (by simpa [goodDom] using hg)
    | group name children closed hl style =>
      exact travTrace_spec (.group name children closed hl style) ps pp h (by simpa [goodDom] using hg)
    | blank ae hl => exact travTrace_spec (.blank ae hl) ps pp h (by simpa [goodDom] using hg)
    | comment text ae hl =>
      exact travTrace_spec (.comment text ae hl) ps pp h (by simpa [goodDom] using hg)
    | styled children style =>
      exact travTrace_spec (.styled children style) ps pp h (by simpa [goodDom] using hg)
  | seq ts => exact travList_spec ts ps pp h (by simpa [goodDom] using hg)
end

/-- C1: evaluation of the entry point with named-marker mapping
`{"a": 5}` supplied in the options (empty trace sequence, defaults
elsewhere).  The zoom/marker writer call receives the keyword mapping
`{"kwargs": {"a": 5}}` — the supplied mapping wrapped under the single
keyword name `kwargs` — which differs from the mapping `{"a": 5}` of named
marker positions the claim requires it to receive. -/
theorem c1_named_markers_wrapped :
    write_gtkw_file ("dump.vcd") (.seq .nil) none 0 (-1) _ROOT_STYLE none none none
        (some [(("a"), 5)]) none =
      ([.dumpfile ("dump.vcd") true,
        .zoomMarkers 0 (-1) [(("kwargs"), PyObj.dict [(("a"), 5)])]], none) ∧
      [(("kwargs"), PyObj.dict [(("a"), 5)])] ≠
        [(("a"), PyObj.int 5)] :=
  ⟨rfl, by decide⟩

/-- C2: evaluation of the flattener at the lone bare-name node `"ab"`:
Python's `str` counts as a `Sequence`, so the node is not wrapped into a
one-element list but iterated character-wise, emitting two one-character
trace calls; the one-element sequence `["ab"]` emits a single trace call
for `"ab"`.  The two runs differ, against the claimed normalization. -/
theorem c2_bare_string_iterated :
    travDom (.single (.str ("ab"))) _ROOT_STYLE none none =
      ([.trace ("a") none none ("hex") false (some true) none none none,
        .trace ("b") none none ("hex") false (some true) none none none], none, none) ∧
    travDom (.seq (.cons (.str ("ab")) .nil)) _ROOT_STYLE none none =
      ([.trace ("ab") none none ("hex") false (some true) none none none], none, none) ∧
    travDom (.single (.str ("ab"))) _ROOT_STYLE none none ≠
      travDom (.seq (.cons (.str ("ab")) .nil)) _ROOT_STYLE none none :=
  ⟨by decide, by decide, by decide⟩

/-- C3: for a Group node whose region open succeeds (writer budget
`k + 1`), whatever events `cevs` and outcome `r` the recursion into the
children produces — including a raised writer error — the group-region
close is emitted immediately after the child events before control
returns, and the outcome `r` propagates unchanged (not caught or
translated). -/
theorem c3_group_close_on_every_exit (name : String) (children : Dom)
    (closed hl : Bool) (style : Option Style) (ps : Style) (pp : Option String)
    (k : Nat) (cevs : List Event) (b2 : Option Nat) (r : Option Err)
    (h : travDom children (_merge_style ps style) pp (some k) = (cevs, b2, r)) :
    travTrace (.group name children closed hl style) ps pp (some (k + 1)) =
      (.groupOpen name closed hl :: (cevs ++ [.groupClose]), b2, r) := by
  simp [travTrace, emit, h]

/-- C3 witness: a group with one blank child and writer budget 1: the open
succeeds, the child's writer call raises, and the close is still observed
before the error propagates. -/
theorem c3_group_close_witness :
    travTrace (.group ("g") (.seq (.cons (.blank false false) .nil)) false false none)
        _ROOT_STYLE none (some 1) =
      (.groupOpen ("g") false false :: ([] ++ [.groupClose]), some 0, some Err.writer) :=
  c3_group_close_on_every_exit ("g") (.seq (.cons (.blank false false) .nil)) false false
    none _ROOT_STYLE none 0 [] (some 0) (some Err.writer) (by decide)

/-- C8: an implicit-signal (bare name string) element of a sequence emits
exactly one trace call: its path is `_merge_path parentPath name`, its
alias and translate filters are absent, its highlight is false, and its
color, data format, right-justify and extra flags are read unchanged from
the inherited parent style; traversal then continues with the rest of the
sequence. -/
theorem c8_implicit_signal_emission (name : String) (rest : TraceList) (ps : Style)
    (pp : Option String) (f : DataFmt) (hf : ps.datafmt = some f) :
    travList (.cons (.str name) rest) ps pp none =
      (.trace (_merge_path pp name) none ps.color.join f.value false ps.rjustify
          ps.extraflags.join none none :: (travList rest ps pp none).1,
        (travList rest ps pp none).2) := by
  rcases h2 : travList rest ps pp none with ⟨evs2, b3, r2⟩
  simp [travList, travTrace, emitImplicit, hf, emit, h2]

/-- C8 witness at the bare name `"clk"` under the default root style. -/
theorem c8_implicit_signal_witness :
    travList (.cons (.str ("clk")) .nil) _ROOT_STYLE none none =
      (.trace (_merge_path none ("clk")) none Option.none.join (DataFmt.HEX).value false
          (some true) Option.none.join none none :: (travList .nil _ROOT_STYLE none none).1,
        (travList .nil _ROOT_STYLE none none).2) :=
  c8_implicit_signal_emission ("clk") .nil _ROOT_STYLE none DataFmt.HEX (by decide)

/-- C9: starting from a valid root style (concrete `datafmt` and
`rjustify`), the traversal never raises the absent-`datafmt` access error
at any leaf emission, and every emitted trace call has its `rjustify`
argument present — for any tree, path prefix and writer behaviour. -/
theorem c9_leaf_styles_concrete (d : Dom) (ps : Style) (pp : Option String)
    (b : Option Nat) (h : ps.isRoot = true) :
    (travDom d ps pp b).2.2 ≠ some Err.noDatafmt ∧
      ((travDom d ps pp b).1.all evOk) = true :=
  travDom_root d ps pp b h

/-- C9 witness: a style-less signal under the default root style. -/
theorem c9_leaf_styles_witness :
    (travDom (.seq (.cons (.signal ("s") none false none none none) .nil))
        _ROOT_STYLE none none).2.2 ≠ some Err.noDatafmt ∧
      ((travDom (.seq (.cons (.signal ("s") none false none none none) .nil))
        _ROOT_STYLE none none).1.all evOk) = true :=
  c9_leaf_styles_concrete (.seq (.cons (.signal ("s") none false none none none) .nil))
    _ROOT_STYLE none none (by decide)

/-- C10: flattening an empty sequence of trace nodes emits no writer calls
at all, leaves the writer untouched, and returns normally, for every
parent style, parent path and writer behaviour. -/
theorem c10_empty_sequence (ps : Style) (pp : Option String) (b : Option Nat) :
    travDom (.seq .nil) ps pp b = ([], b, none) := rfl

theorem dictOr_assoc {α : Type} (a b c : Option α) :
    dictOr (dictOr a b) c = dictOr a (dictOr b c) := by
  cases c <;> simp [dictOr]

/-- The style resolved along a three-level chain: root `R`, then Submodule
style `A`, then Styled style `B`, then Signal style `C`. -/
def chain3 (R A B C : Style) : Style :=
  _merge_style (_merge_style (_merge_style R (some A)) (some B)) (some C)

/-- Concrete chain styles: the Submodule level sets only a color. -/
def styleA : Style :=
  { color := some (some 1), datafmt := none, rjustify := none, extraflags := none }

/-- Concrete chain styles: the Styled level sets only right-justify. -/
def styleB : Style :=
  { color := none, datafmt := none, rjustify := some false, extraflags := none }

/-- Concrete chain styles: the Signal level sets only the data format. -/
def styleC : Style :=
  { color := none, datafmt := some .BIN, rjustify := none, extraflags := none }

/-- C4: (i) `_merge_path` returns the own name when the parent path is
absent, and `parent ++ "." ++ own` otherwise; (ii) every trace call
emitted for a Signal leaf or an implicit-signal leaf carries path
`_merge_path parentPath name`; (iii) Styled and Group nodes pass the path
prefix through to their children unchanged, while a Submodule extends it
by its own name; (iv) traversal under root prefix `p` emits exactly the
events of the prefix-free traversal with `p ++ "."` prepended to every
trace path — so each leaf's path is the dot-join of the enclosing
Submodule names from the root prefix down to the leaf's own name. -/
theorem c4_paths_dot_join :
    (∀ x, _merge_path none x = x) ∧
    (∀ p x, _merge_path (some p) x = p ++ (".") ++ x) ∧
    (∀ name als hl st tff tfp ps pp b,
      ((travTrace (.signal name als hl st tff tfp) ps pp b).1.all
        (pathOk (_merge_path pp name))) = true) ∧
    (∀ name ps pp b,
      ((travTrace (.str name) ps pp b).1.all (pathOk (_merge_path pp name))) = true) ∧
    (∀ children st ps pp b,
      travTrace (.styled children st) ps pp b =
        travDom children (_merge_style ps (some st)) pp b) ∧
    (∀ name children cl hl st ps pp,
      travTrace (.group name children cl hl st) ps pp none =
        (.groupOpen name cl hl ::
          ((travDom children (_merge_style ps st) pp none).1 ++ [.groupClose]),
          (travDom children (_merge_style ps st) pp none).2)) ∧
    (∀ name children st ps pp b,
      travTrace (.submodule name children st) ps pp b =
        travDom children (_merge_style ps st) (some (_merge_path pp name)) b) ∧
    (∀ d ps p b,
      travDom d ps (some p) b =
        ((travDom d ps none b).1.map (prefixEvent p), (travDom d ps none b).2)) := by
  refine ⟨fun x => rfl, fun p x => rfl, ?_, ?_, fun children st ps pp b => rfl, ?_,
    fun name children st ps pp b => rfl, fun d ps p b => travDom_shift d ps b p⟩
  · intro name als hl st tff tfp ps pp b
    cases hf : (_merge_style ps st).datafmt with
    | none => simp [travTrace, hf]
    | some f =>
      cases b with
      | none => simp [travTrace, hf, emit, pathOk]
      | some k => cases k <;> simp [travTrace, hf, emit, pathOk]
  · intro name ps pp b
    cases hf : ps.datafmt with
    | none => simp [travTrace, emitImplicit, hf]
    | some f =>
      cases b with
      | none => simp [travTrace, emitImplicit, hf, emit, pathOk]
      | some k => cases k <;> simp [travTrace, emitImplicit, hf, emit, pathOk]
  · intro name children cl hl st ps pp
    rcases h : travDom children (_merge_style ps st) pp none with ⟨cevs, b3, r⟩
    simp [travTrace, emit, h]

/-- C5: `_merge_style` returns the parent unchanged when `own` is absent;
otherwise each of the four fields is `own`'s entry when present there and
the parent's entry otherwise — so no field present in `own` is dropped,
and no field absent from both is fabricated — and merging onto a valid
`RootStyle` always yields a valid `RootStyle`. -/
theorem c5_merge_style_fields :
    (∀ parent, _merge_style parent none = parent) ∧
    (∀ parent o v, o.color = some v → (_merge_style parent (some o)).color = some v) ∧
    (∀ parent o, o.color = none → (_merge_style parent (some o)).color = parent.color) ∧
    (∀ parent o v, o.datafmt = some v → (_merge_style parent (some o)).datafmt = some v) ∧
    (∀ parent o, o.datafmt = none → (_merge_style parent (some o)).datafmt = parent.datafmt) ∧
    (∀ parent o v, o.rjustify = some v → (_merge_style parent (some o)).rjustify = some v) ∧
    (∀ parent o, o.rjustify = none →
      (_merge_style parent (some o)).rjustify = parent.rjustify) ∧
    (∀ parent o v, o.extraflags = some v →
      (_merge_style parent (some o)).extraflags = some v) ∧
    (∀ parent o, o.extraflags = none →
      (_merge_style parent (some o)).extraflags = parent.extraflags) ∧
    (∀ parent own, parent.isRoot = true → (_merge_style parent own).isRoot = true) := by
  refine ⟨fun parent => rfl, ?_, ?_, ?_, ?_, ?_, ?_, ?_, ?_, isRoot_merge⟩
  · intro parent o v h; simp [_merge_style, dictOr, h]
  · intro parent o h; simp [_merge_style, dictOr, h]
  · intro parent o v h; simp [_merge_style, dictOr, h]
  · intro parent o h; simp [_merge_style, dictOr, h]
  · intro parent o v h; simp [_merge_style, dictOr, h]
  · intro parent o h; simp [_merge_style, dictOr, h]
  · intro parent o v h; simp [_merge_style, dictOr, h]
  · intro parent o h; simp [_merge_style, dictOr, h]

/-- C5 witness: merging a color-only style onto the default root style
keeps the color, inherits the data format, and stays a valid root style. -/
theorem c5_merge_style_witness :
    (_merge_style _ROOT_STYLE (some styleA)).color = some (some 1) ∧
    (_merge_style _ROOT_STYLE (some styleA)).datafmt = _ROOT_STYLE.datafmt ∧
    (_merge_style _ROOT_STYLE (some styleA)).isRoot = true :=
  ⟨c5_merge_style_fields.2.1 _ROOT_STYLE styleA (some 1) (by decide),
    c5_merge_style_fields.2.2.2.2.1 _ROOT_STYLE styleA (by decide),
    c5_merge_style_fields.2.2.2.2.2.2.2.2.2 _ROOT_STYLE (some styleA) (by decide)⟩

/-- C6: style merge is associative and right-biased (a field present in
the own style always wins); along a three-level chain the resolved style
takes each field from the innermost level specifying it (nested
`dictOr`, innermost argument winning); and the trace emitted for the
chain root → Submodule(style A) → Styled(style B) → Signal(style C)
carries exactly that resolved style. -/
theorem c6_merge_assoc_chain :
    (∀ a b c : Style,
      _merge_style (_merge_style a (some b)) (some c) =
        _merge_style a (some (_merge_style b (some c)))) ∧
    (∀ a b : Style, b.color.isSome = true → (_merge_style a (some b)).color = b.color) ∧
    (∀ a b : Style, b.datafmt.isSome = true →
      (_merge_style a (some b)).datafmt = b.datafmt) ∧
    (∀ a b : Style, b.rjustify.isSome = true →
      (_merge_style a (some b)).rjustify = b.rjustify) ∧
    (∀ a b : Style, b.extraflags.isSome = true →
      (_merge_style a (some b)).extraflags = b.extraflags) ∧
    (∀ R A B C : Style,
      (chain3 R A B C).color = dictOr (dictOr (dictOr R.color A.color) B.color) C.color ∧
      (chain3 R A B C).datafmt =
        dictOr (dictOr (dictOr R.datafmt A.datafmt) B.datafmt) C.datafmt ∧
      (chain3 R A B C).rjustify =
        dictOr (dictOr (dictOr R.rjustify A.rjustify) B.rjustify) C.rjustify ∧
      (chain3 R A B C).extraflags =
        dictOr (dictOr (dictOr R.extraflags A.extraflags) B.extraflags) C.extraflags) ∧
    (∀ (R A B C : Style) (nm name : String) (als : Option String) (hl : Bool)
        (tff tfp pp : Option String) (f : DataFmt),
      (chain3 R A B C).datafmt = some f →
      travTrace (.submodule nm (.single (.styled
            (.single (.signal name als hl (some C) tff tfp)) B)) (some A)) R pp none =
        ([.trace (_merge_path (some (_merge_path pp nm)) name) als
            (chain3 R A B C).color.join f.value hl (chain3 R A B C).rjustify
            (chain3 R A B C).extraflags.join tff tfp], none, none)) := by
  refine ⟨?_, ?_, ?_, ?_, ?_, ?_, ?_⟩
  · intro a b c; simp [_merge_style, dictOr_assoc]
  · intro a b h
    obtain ⟨v, hv⟩ := Option.isSome_iff_exists.mp h
    simp [_merge_style, dictOr, hv]
  · intro a b h
    obtain ⟨v, hv⟩ := Option.isSome_iff_exists.mp h
    simp [_merge_style, dictOr, hv]
  · intro a b h
    obtain ⟨v, hv⟩ := Option.isSome_iff_exists.mp h
    simp [_merge_style, dictOr, hv]
  · intro a b h
    obtain ⟨v, hv⟩ := Option.isSome_iff_exists.mp h
    simp [_merge_style, dictOr, hv]
  · intro R A B C; exact ⟨rfl, rfl, rfl, rfl⟩
  · intro R A B C nm name als hl tff tfp pp f hf
    simp only [chain3] at hf
    simp [travTrace, travDom, chain3, hf, emit]

/-- C6 witness: the concrete chain with disjoint overrides (color from A,
right-justify from B, data format from C) under the default root style. -/
theorem c6_merge_chain_witness :
    travTrace (.submodule ("top") (.single (.styled
          (.single (.signal ("sig") none false (some styleC) none none)) styleB))
        (some styleA)) _ROOT_STYLE none none =
      ([.trace (_merge_path (some (_merge_path none ("top"))) ("sig")) none
          (chain3 _ROOT_STYLE styleA styleB styleC).color.join (DataFmt.BIN).value false
          (chain3 _ROOT_STYLE styleA styleB styleC).rjustify
          (chain3 _ROOT_STYLE styleA styleB styleC).extraflags.join none none],
        none, none) :=
  c6_merge_assoc_chain.2.2.2.2.2.2 _ROOT_STYLE styleA styleB styleC ("top") ("sig")
    none false none none none DataFmt.BIN (by decide)

/-- C7 counterexample: for the input consisting of the lone bare-name node
`"ab"`, the emitted writer calls are not the depth-first pre-order
emission of that one-leaf tree (the spec-side `specFlattenDom`): the code
emits two one-character traces instead of the single leaf trace. -/
theorem c7_preorder_counterexample :
    (travDom (.single (.str ("ab"))) _ROOT_STYLE none none).1 ≠
      specFlattenDom (.single (.str ("ab"))) _ROOT_STYLE none := by
  decide

/-- C7 (amended): for every input tree in which a bare-name string occurs
only as an element of a sequence (never as a lone non-sequence
`children`/`nodes` value), under a valid root style, the writer calls of
an error-free run are exactly the left-to-right depth-first pre-order
emission of the tree (`specFlattenDom`); in particular a Group containing
two Signals yields one open, the two traces, then one close, in that
order. -/
theorem c7_preorder_amended (d : Dom) (ps : Style) (pp : Option String)
    (h : ps.isRoot = true) (hg : goodDom d = true) :
    (travDom d ps pp none).1 = specFlattenDom d ps pp := by
  rw [travDom_spec d ps pp h hg]

/-- C7 witness: a Group containing two Signals, under the default root
style. -/
theorem c7_preorder_witness :
    Style.isRoot _ROOT_STYLE = true ∧
    goodDom (.single (.group ("g") (.seq (.cons (.signal ("x") none false none none none)
        (.cons (.signal ("y") none false none none none) .nil))) false false none)) = true ∧
    (travDom (.single (.group ("g") (.seq (.cons (.signal ("x") none false none none none)
        (.cons (.signal ("y") none false none none none) .nil))) false false none))
      _ROOT_STYLE none none).1 =
      specFlattenDom (.single (.group ("g")
        (.seq (.cons (.signal ("x") none false none none none)
          (.cons (.signal ("y") none false none none none) .nil))) false false none))
        _ROOT_STYLE none :=
  ⟨by decide, by decide, c7_preorder_amended _ _ none (by decide) (by decide)⟩

end Gtkwedit
